import Mathlib

/-!
Verification of the Akfix-Outreach-Automator normalization, linking, archiving
and export core.  Every definition below is a shallow embedding of a function
of the repository (file and symbol named in its doc comment); strings are
modelled as lists of characters.
-/

namespace Akfix

/-- Strings of the embedded program, modelled as lists of characters. -/
abbrev Str := List Char

/-- Message discriminator of `GeneratedMessage.type` (src/unnamed/part_000, types). -/
inductive MessageType where
  | email
  | whatsapp
deriving DecidableEq

/-- Embeds the `GeneratedMessage` interface (src/unnamed/part_000). -/
structure GeneratedMessage where
  subject : Str
  body : Str
  type : MessageType
  whatsappBody : Option Str := none
deriving DecidableEq

/-- Embeds the `Customer` interface (src/unnamed/part_000). -/
structure Customer where
  id : Str
  company : Str
  representative : Str
  phone : Str
  country : Str
  email : Str
  website : Str
  notes : Str
deriving DecidableEq

/-- The delimiter class of the regex `[,/&\n|]` in `phoneNumbers`
(src/components/CustomerCard.tsx). -/
def isPhoneDelim (c : Char) : Bool :=
  c == ',' || c == '/' || c == '&' || c == '\n' || c == '|'

/-- Core of JavaScript `String.split` on a regex matching runs `[...]+` of
delimiter characters: `acc` is the piece being built (reversed), `afterDelim`
records whether the previous character was part of a delimiter run. -/
def splitRunsCore (p : Char → Bool) : List Char → List Char → Bool → List (List Char)
  | [], acc, _ => [acc.reverse]
  | c :: cs, acc, afterDelim =>
    if p c then
      if afterDelim then splitRunsCore p cs [] true
      else acc.reverse :: splitRunsCore p cs [] true
    else splitRunsCore p cs (c :: acc) false

/-- JavaScript `s.split(regex)` where the regex matches maximal runs of
characters satisfying `p`. -/
def jsSplitRuns (p : Char → Bool) (s : Str) : List Str :=
  splitRunsCore p s [] false

/-- Whitespace test used by the `trim` model. -/
def isWSChar (c : Char) : Bool := c.isWhitespace

/-- JavaScript `String.trim`: drop whitespace from both ends. -/
def jsTrim (s : Str) : Str :=
  ((s.dropWhile isWSChar).reverse.dropWhile isWSChar).reverse

/-- Embeds the `phoneNumbers` memo of src/components/CustomerCard.tsx:
guard on empty, split on `[,/&\n|]+`, trim each piece, keep length > 3. -/
def phoneNumbers (raw : Str) : List Str :=
  if raw = [] then []
  else ((jsSplitRuns isPhoneDelim raw).map jsTrim).filter (fun s => decide (3 < s.length))

/-- Embeds the `cleanPhone` normalization inside `getWhatsappLink`
(src/components/CustomerCard.tsx): `phone.replace(/[^0-9+]/g, '')`, then a
leading `00` becomes `+`, else a missing leading `+` is prepended. -/
def normalizePhone (phone : Str) : Str :=
  let cleanPhone := phone.filter (fun c => c.isDigit || c == '+')
  if ("00".toList).isPrefixOf cleanPhone then '+' :: cleanPhone.drop 2
  else if (['+']).isPrefixOf cleanPhone then cleanPhone
  else '+' :: cleanPhone

/-- JavaScript `s.replace('+', '')`: removes only the first occurrence. -/
def removeFirstPlus : Str → Str
  | [] => []
  | c :: cs => if c = '+' then cs else c :: removeFirstPlus cs

/-- Hexadecimal digit character (uppercase), for percent-encoding. -/
def hexDigitChar (n : Nat) : Char :=
  if n < 10 then Char.ofNat (48 + n) else Char.ofNat (55 + n)

/-- UTF-8 byte sequence of a character, for percent-encoding. -/
def utf8Bytes (c : Char) : List Nat :=
  let n := c.toNat
  if n < 128 then [n]
  else if n < 2048 then [192 + n / 64, 128 + n % 64]
  else if n < 65536 then [224 + n / 4096, 128 + n / 64 % 64, 128 + n % 64]
  else [240 + n / 262144, 128 + n / 4096 % 64, 128 + n / 64 % 64, 128 + n % 64]

/-- Characters `encodeURIComponent` leaves unescaped. -/
def isUriUnreserved (c : Char) : Bool :=
  c.isAlpha || c.isDigit || ['-', '_', '.', '!', '~', '*', '(', ')'].contains c ||
    c == Char.ofNat 39

/-- JavaScript `encodeURIComponent`: unreserved characters kept, all others
percent-encoded byte by byte. -/
def encodeURIComponent : Str → Str
  | [] => []
  | c :: cs =>
    (if isUriUnreserved c then [c]
     else ((utf8Bytes c).map (fun b => ['%', hexDigitChar (b / 16), hexDigitChar (b % 16)])).flatten) ++
      encodeURIComponent cs

/-- JavaScript `a || b` on an optional string `a` (absent and empty are falsy). -/
def jsOrStr (a : Option Str) (b : Str) : Str :=
  match a with
  | some w => if w = [] then b else w
  | none => b

/-- The three chat-link variants of `getWhatsappLink`. -/
inductive LinkVariant where
  | web
  | app
  | business

/-- Embeds `getWhatsappLink` of src/components/CustomerCard.tsx. -/
def getWhatsappLink (generatedMessage : Option GeneratedMessage) (phone : Str)
    (type : LinkVariant) : Str :=
  match generatedMessage with
  | none => "#".toList
  | some gm =>
    if phone = [] then "#".toList
    else
      let cleanPhone := normalizePhone phone
      let phoneForUrl := removeFirstPlus cleanPhone
      let bodyToUse := jsOrStr gm.whatsappBody gm.body
      let text := encodeURIComponent bodyToUse
      match type with
      | .business =>
          "intent://send?phone=".toList ++ phoneForUrl ++ "&text=".toList ++ text ++
            "#Intent;package=com.whatsapp.w4b;scheme=whatsapp;end".toList
      | .app => "whatsapp://send?phone=".toList ++ phoneForUrl ++ "&text=".toList ++ text
      | .web => "https://wa.me/".toList ++ phoneForUrl ++ "?text=".toList ++ text

/-- The two tabs of the customer card. -/
inductive CardTab where
  | email
  | whatsapp

/-- Embeds the `textToCopy` computation of `handleCopy`
(src/components/CustomerCard.tsx). -/
def copyText (gm : GeneratedMessage) (tab : CardTab) : Str :=
  match tab with
  | .email => "Subject: ".toList ++ gm.subject ++ "\n\n".toList ++ gm.body
  | .whatsapp => jsOrStr gm.whatsappBody gm.body

/-- Embeds `handleCopy` including its early return when no message exists. -/
def handleCopyText (generatedMessage : Option GeneratedMessage) (tab : CardTab) : Option Str :=
  generatedMessage.map (fun gm => copyText gm tab)

/-- Embeds the `ColumnMapping` type of src/components/FileUpload.tsx
(the empty string means the field is mapped to none). -/
structure ColumnMapping where
  company : Str
  representative : Str
  phone : Str
  email : Str
  country : Str
  website : Str
  notes : Str

/-- JavaScript `String.toLowerCase`, character by character. -/
def lowerStr (s : Str) : Str := s.map Char.toLower

/-- JavaScript `hay.includes(needle)`: contiguous-substring test. -/
def containsSub : Str → Str → Bool
  | hay, needle =>
    needle.isPrefixOf hay ||
      (match hay with
       | [] => false
       | _ :: t => containsSub t needle)

/-- JavaScript `Array.findIndex` returning an option instead of -1. -/
def findIdxP (p : Str → Bool) : List Str → Option Nat
  | [] => none
  | y :: ys => if p y then some 0 else (findIdxP p ys).map (fun i => i + 1)

/-- Embeds `findMatch` inside `autoMapColumns` (src/components/FileUpload.tsx):
first header whose lowercase form contains some keyword, else the empty string. -/
def findMatch (headers : List Str) (keywords : List Str) : Str :=
  let lowerHeaders := headers.map lowerStr
  match findIdxP (fun h => keywords.any (fun k => containsSub h k)) lowerHeaders with
  | some index => headers.getD index []
  | none => []

def companyKeywords : List Str :=
  ["firm".toList, "company".toList, "name".toList, "business".toList]

def representativeKeywords : List Str :=
  ["rep".toList, "contact".toList, "person".toList, "mr".toList, "mrs".toList, "name".toList]

def phoneKeywords : List Str :=
  ["tel".toList, "phone".toList, "mobile".toList, "cel".toList]

def emailKeywords : List Str :=
  ["mail".toList, "e-mail".toList]

def countryKeywords : List Str :=
  ["country".toList, "address".toList, "city".toList, "location".toList]

def websiteKeywords : List Str :=
  ["web".toList, "site".toList, "url".toList]

def notesKeywords : List Str :=
  ["note".toList, "desc".toList, "comment".toList, "product".toList, "interest".toList,
    "açıklama".toList]

/-- Embeds `autoMapColumns` of src/components/FileUpload.tsx: every field of the
previous mapping is overwritten by its keyword scan. -/
def autoMapColumns (_prev : ColumnMapping) (headers : List Str) : ColumnMapping :=
  { company := findMatch headers companyKeywords
    representative := findMatch headers representativeKeywords
    phone := findMatch headers phoneKeywords
    email := findMatch headers emailKeywords
    country := findMatch headers countryKeywords
    website := findMatch headers websiteKeywords
    notes := findMatch headers notesKeywords }

/-- Embeds the `getVal` helper of `processExcelData`
(src/components/FileUpload.tsx): empty header yields empty, a header absent
from `headers` yields empty, otherwise the cell at the found column index
(empty when the row is shorter) is trimmed. -/
def getVal (headers : List Str) (row : List Str) (headerName : Str) : Str :=
  if headerName = [] then []
  else
    match findIdxP (fun x => x == headerName) headers with
    | none => []
    | some colIndex => jsTrim (row.getD colIndex [])

/-- Decimal digit character. -/
def digitChar (m : Nat) : Char := Char.ofNat (48 + m)

/-- Fuel-driven decimal rendering of a natural number. -/
def natDecAux : Nat → Nat → Str
  | 0, _ => []
  | fuel + 1, n =>
    if n < 10 then [digitChar n] else natDecAux fuel (n / 10) ++ [digitChar (n % 10)]

/-- JavaScript decimal stringification of a nonnegative integer, as used by the
template literals building record ids. -/
def natDec (n : Nat) : Str := natDecAux (n + 1) n

/-- Decimal value of a digit string (left fold), inverse of `natDec`. -/
def decVal (s : Str) : Nat := s.foldl (fun a c => 10 * a + (c.toNat - 48)) 0

/-- The id template `cust-xls-(Date.now())-(index)` of `processExcelData`. -/
def makeXlsId (now index : Nat) : Str :=
  "cust-xls-".toList ++ natDec now ++ '-' :: natDec index

/-- The id template `cust-img-(Date.now())-(index)` of `extractDataFromImage`. -/
def makeImgId (now index : Nat) : Str :=
  "cust-img-".toList ++ natDec now ++ '-' :: natDec index

/-- JavaScript `Array.map` with the element index as second callback argument. -/
def mapWithIndex (f : Nat → α → β) : Nat → List α → List β
  | _, [] => []
  | i, a :: as => f i a :: mapWithIndex f (i + 1) as

/-- One record of the `excelData.map` body in `processExcelData`
(src/components/FileUpload.tsx). -/
def buildRecord (headers : List Str) (mapping : ColumnMapping) (now : Nat)
    (index : Nat) (row : List Str) : Customer :=
  { id := makeXlsId now index
    company := getVal headers row mapping.company
    representative := getVal headers row mapping.representative
    phone := getVal headers row mapping.phone
    email := getVal headers row mapping.email
    country := getVal headers row mapping.country
    website := getVal headers row mapping.website
    notes := getVal headers row mapping.notes }

/-- The filter `c.company || c.phone || c.email` of `processExcelData`. -/
def keepRecord (c : Customer) : Bool :=
  !(c.company == []) || !(c.phone == []) || !(c.email == [])

/-- Embeds `processExcelData` of src/components/FileUpload.tsx
(`Date.now()` is the explicit `now` parameter, identical for the batch). -/
def processExcelData (headers : List Str) (rows : List (List Str))
    (mapping : ColumnMapping) (now : Nat) : List Customer :=
  (mapWithIndex (fun index row => buildRecord headers mapping now index row) 0 rows).filter
    keepRecord

/-- One parsed object of the extraction response JSON
(src/services/geminiService.ts); absent fields are `none`. -/
structure ParsedExtractCustomer where
  company : Option Str
  representative : Option Str
  phone : Option Str
  country : Option Str
  email : Option Str
  website : Option Str
  notes : Option Str

/-- JavaScript `a || ""` on an optional string field. -/
def jsOrEmpty (a : Option Str) : Str := jsOrStr a []

/-- Embeds the `parsedData.map` of `extractDataFromImage`
(src/services/geminiService.ts). -/
def imgCustomers (now : Nat) (parsed : List ParsedExtractCustomer) : List Customer :=
  mapWithIndex (fun index c =>
    { company := jsOrEmpty c.company
      representative := jsOrEmpty c.representative
      phone := jsOrEmpty c.phone
      country := jsOrEmpty c.country
      email := jsOrEmpty c.email
      website := jsOrEmpty c.website
      notes := jsOrEmpty c.notes
      id := makeImgId now index }) 0 parsed

/-- The schema-constrained draft JSON of `generateDraft`
(src/services/geminiService.ts). -/
structure ParsedDraft where
  emailSubject : Str
  emailBody : Str
  whatsappBody : Str

/-- Outcome of the external generation request in `generateDraft`: the request
throws (network error, JSON parse error, ...), or returns a response whose
`text` field is absent or carries the parsed draft. -/
inductive DraftCallResult where
  | failure
  | success (text : Option ParsedDraft)

/-- The fixed fallback message of the catch block of `generateDraft`. -/
def fallbackDraft : GeneratedMessage :=
  { subject := "Follow up".toList
    body := "Error generating draft.".toList
    type := .email
    whatsappBody := none }

/-- Embeds `generateDraft` of src/services/geminiService.ts: a successful
response with text is parsed into the message; a missing text throws
`No response generated` which the catch block, like every other error,
replaces by the fixed fallback. -/
def generateDraft (r : DraftCallResult) : GeneratedMessage :=
  match r with
  | .success (some d) =>
      { subject := d.emailSubject, body := d.emailBody, type := .email,
        whatsappBody := some d.whatsappBody }
  | .success none => fallbackDraft
  | .failure => fallbackDraft

/-- The failure cases of the generation call: it throws or produces no text. -/
def isDraftFailure (r : DraftCallResult) : Prop :=
  r = .failure ∨ r = .success none

/-- Embeds the `setGeneratedMessages` update of `handleGenerateDraft`
(src/unnamed/part_000): the draft store maps the customer id to the message. -/
def storeDraft (id : Str) (m : GeneratedMessage) (msgs : Str → Option GeneratedMessage) :
    Str → Option GeneratedMessage :=
  fun k => if k = id then some m else msgs k

/-- An archived pair, as in the `savedItems` state (src/unnamed/part_000). -/
structure SavedItem where
  customer : Customer
  message : GeneratedMessage

/-- The `App` component state relevant to archiving (src/unnamed/part_000):
active customers, draft store, archive. -/
structure AppState where
  customers : List Customer
  generatedMessages : Str → Option GeneratedMessage
  savedItems : List SavedItem

/-- Embeds `handleDelete` of src/unnamed/part_000: remove the customer from the
active list and, when a draft exists, delete it from the store. -/
def handleDelete (id : Str) (s : AppState) : AppState :=
  { s with
    customers := s.customers.filter (fun c => c.id != id)
    generatedMessages :=
      if (s.generatedMessages id).isSome then
        fun k => if k = id then none else s.generatedMessages k
      else s.generatedMessages }

/-- Embeds `handleSave` of src/unnamed/part_000: when the customer is found and
a draft exists, append the pair to the archive and delete both from the working
state; otherwise do nothing. -/
def handleSave (id : Str) (s : AppState) : AppState :=
  match s.customers.find? (fun c => c.id == id), s.generatedMessages id with
  | some customer, some message =>
      handleDelete id
        { s with savedItems := s.savedItems ++ [{ customer := customer, message := message }] }
  | _, _ => s

/-- A double-quoted CSV field, verbatim, as produced by the template literal of
the CSV export (src/unnamed/part_001). -/
def quoteField (s : Str) : Str := '"' :: s ++ ['"']

/-- The fixed CSV header row of the export (src/unnamed/part_001). -/
def csvHeaderLine : Str := "Company,Representative,Phone,Email,Notes,Status".toList

/-- One exported CSV row (src/unnamed/part_001): the five customer text fields
and the constant Status `Processed`, each double-quoted verbatim. -/
def csvRow (it : SavedItem) : Str :=
  quoteField it.customer.company ++ ',' ::
    (quoteField it.customer.representative ++ ',' ::
      (quoteField it.customer.phone ++ ',' ::
        (quoteField it.customer.email ++ ',' ::
          (quoteField it.customer.notes ++ ',' :: quoteField "Processed".toList))))

/-- JavaScript `Array.join("\n")`. -/
def joinNl : List Str → Str
  | [] => []
  | [x] => x
  | x :: xs => x ++ '\n' :: joinNl xs

/-- The CSV text of the export: header line then one row per archived entry,
joined by newlines (src/unnamed/part_001). -/
def csvBody (items : List SavedItem) : Str :=
  joinNl (csvHeaderLine :: items.map csvRow)

/-- The full `csvContent` string of the export, data-URI head included
(src/unnamed/part_001). -/
def csvContent (items : List SavedItem) : Str :=
  "data:text/csv;charset=utf-8,".toList ++ csvBody items

/-- A line of double-quoted comma-separated fields; `csvRow` produces exactly
`mkQuotedLine` of its six field values. -/
def mkQuotedLine : List Str → Str
  | [] => []
  | [f] => quoteField f
  | f :: fs => quoteField f ++ ',' :: mkQuotedLine fs

/-- Splitting a text into lines at each newline character, as a standard CSV
reader does before parsing rows. -/
def splitNl : Str → List Str
  | [] => [[]]
  | c :: cs =>
    if c = '\n' then [] :: splitNl cs
    else
      match splitNl cs with
      | [] => [[c]]
      | p :: ps => (c :: p) :: ps

/-- Modelled from the spec: the quoted-field fragment of a standard (RFC 4180)
CSV parser.  After an opening double quote, reads until the closing double
quote, a doubled quote standing for a literal one; returns the field and the
rest of the line. -/
def parseQuotedField : Str → Option (Str × Str)
  | [] => none
  | c :: cs =>
    if c = '"' then
      match cs with
      | [] => some ([], [])
      | c2 :: cs2 =>
        if c2 = '"' then
          match parseQuotedField cs2 with
          | some (f, r) => some ('"' :: f, r)
          | none => none
        else some ([], cs)
    else
      match parseQuotedField cs with
      | some (f, r) => some (c :: f, r)
      | none => none

/-- Modelled from the spec: a standard CSV parser for one line of double-quoted
fields separated by commas (`fuel` bounds the number of fields). -/
def parseCsvLine : Nat → Str → Option (List Str)
  | 0, _ => none
  | fuel + 1, s =>
    match s with
    | [] => none
    | c :: rest =>
      if c = '"' then
        match parseQuotedField rest with
        | none => none
        | some (f, r) =>
          match r with
          | [] => some [f]
          | c2 :: r2 =>
            if c2 = ',' then
              match parseCsvLine fuel r2 with
              | none => none
              | some fs => some (f :: fs)
            else none
      else none

/-- A string with none of the characters special to the CSV format. -/
def noSpecialStr (s : Str) : Prop := ∀ c ∈ s, c ≠ '"' ∧ c ≠ ',' ∧ c ≠ '\n'

/-- An archived entry whose exported text fields are all free of CSV-special
characters. -/
def noSpecialItem (it : SavedItem) : Prop :=
  noSpecialStr it.customer.company ∧ noSpecialStr it.customer.representative ∧
    noSpecialStr it.customer.phone ∧ noSpecialStr it.customer.email ∧
    noSpecialStr it.customer.notes

instance (s : Str) : Decidable (noSpecialStr s) :=
  decidable_of_iff (∀ c ∈ s, c ≠ '"' ∧ c ≠ ',' ∧ c ≠ '\n') Iff.rfl

instance (it : SavedItem) : Decidable (noSpecialItem it) :=
  decidable_of_iff (noSpecialStr it.customer.company ∧
    noSpecialStr it.customer.representative ∧ noSpecialStr it.customer.phone ∧
    noSpecialStr it.customer.email ∧ noSpecialStr it.customer.notes) Iff.rfl

/-- A header matches a keyword list when its lowercase form contains some
keyword, exactly the predicate scanned by `findMatch`. -/
def headerMatches (keywords : List Str) (h : Str) : Bool :=
  keywords.any (fun k => containsSub (lowerStr h) k)

/-- Concrete header row of the spec scenario, for witnesses. -/
def hdrsW : List Str := ["Firma".toList, "Temsilci".toList, "Tel".toList, "Adres".toList]

/-- Concrete column mapping of the spec scenario, for witnesses. -/
def mappingW : ColumnMapping :=
  { company := "Firma".toList
    representative := "Temsilci".toList
    phone := "Tel".toList
    email := []
    country := "Adres".toList
    website := []
    notes := [] }

/-- Concrete row data of the spec scenario, for witnesses. -/
def rowsW : List (List Str) :=
  [["CompanyA".toList, "John Doe".toList, "+1234,+5678".toList, "USA".toList]]

/-- Concrete customer for witnesses. -/
def custW : Customer :=
  { id := "x".toList
    company := "A".toList
    representative := []
    phone := "+1234".toList
    country := []
    email := []
    website := []
    notes := [] }

/-- Concrete generated message for witnesses. -/
def msgW : GeneratedMessage :=
  { subject := "s".toList
    body := "b".toList
    type := .email
    whatsappBody := none }

/-- Concrete application state for witnesses: one active customer with a draft,
empty archive. -/
def stateW : AppState :=
  { customers := [custW]
    generatedMessages := fun k => if k = "x".toList then some msgW else none
    savedItems := [] }

/-- Concrete archived entry for witnesses. -/
def itemW : SavedItem :=
  { customer := custW
    message := msgW }

/-- A generated message whose chat variant is present but empty, for the C10
counterexample. -/
def msgEmptyWB : GeneratedMessage :=
  { subject := "S".toList
    body := "B".toList
    type := .email
    whatsappBody := some [] }

/-! ### Helper lemmas -/

/-- Flattening is monotone with respect to the sublist order. -/
theorem flatten_sublist_of_sublist {l₁ l₂ : List Str} (h : l₁.Sublist l₂) :
    l₁.flatten.Sublist l₂.flatten := by
  induction h with
  | slnil => exact List.Sublist.refl _
  | cons a _ ih =>
    exact ih.trans (List.sublist_append_right a _)
  | cons₂ a _ ih =>
    simpa using ih.append_left a

/-- The concatenation of the pieces produced by `splitRunsCore` is a sublist of
the pending piece followed by the remaining input. -/
theorem splitRunsCore_flatten_sublist (p : Char → Bool) :
    ∀ (l acc : List Char) (b : Bool),
      (splitRunsCore p l acc b).flatten.Sublist (acc.reverse ++ l) := by
  intro l
  induction l with
  | nil =>
    intro acc b
    simp [splitRunsCore]
  | cons c cs ih =>
    intro acc b
    by_cases hc : p c = true
    · by_cases hb : b = true
      · simp only [splitRunsCore, hc, hb, if_true]
        exact (ih [] true).trans
          (((List.sublist_cons_self c cs).trans (List.sublist_append_right _ _)))
      · simp only [splitRunsCore, hc, hb, if_true, if_false, List.flatten_cons]
        have h1 : (splitRunsCore p cs [] true).flatten.Sublist cs := by
          simpa using ih [] true
        exact (h1.append_left acc.reverse).trans
          ((List.Sublist.append_left (List.sublist_cons_self c cs) acc.reverse))
    · simp only [splitRunsCore, hc, if_false]
      have h1 := ih (c :: acc) false
      simpa [List.append_assoc] using h1

/-- Trimming yields a sublist of the original string. -/
theorem jsTrim_sublist (s : Str) : (jsTrim s).Sublist s := by
  unfold jsTrim
  have h1 : (s.dropWhile isWSChar).Sublist s := List.dropWhile_sublist _
  have h2 : ((s.dropWhile isWSChar).reverse.dropWhile isWSChar).Sublist
      (s.dropWhile isWSChar).reverse := List.dropWhile_sublist _
  have h3 := h2.reverse
  rw [List.reverse_reverse] at h3
  exact h3.trans h1

/-- Trimming each piece only shrinks the concatenation. -/
theorem map_jsTrim_flatten_sublist (xs : List Str) :
    ((xs.map jsTrim).flatten).Sublist xs.flatten := by
  induction xs with
  | nil => simp
  | cons x xs ih =>
    simpa using (jsTrim_sublist x).append ih

/-- Characters of the stripped phone string are digits or plus signs. -/
theorem mem_phoneFilter {phone : Str} {c : Char}
    (hc : c ∈ phone.filter (fun c => c.isDigit || c == '+')) :
    c.isDigit = true ∨ c = '+' := by
  have h := (List.mem_filter.mp hc).2
  rcases Bool.or_eq_true .. |>.mp h with h | h
  · exact Or.inl h
  · exact Or.inr (by simpa using h)

/-! ### Claim theorems -/

/-- C2: for every raw phone string, `phoneNumbers` (the segmenter) returns only
pieces of length greater than 3, the concatenation of the returned pieces is a
subsequence of the input (so order of appearance is preserved), and the empty
input yields the empty sequence. -/
theorem phoneNumbers_segmentation (raw : Str) :
    (∀ piece ∈ phoneNumbers raw, 3 < piece.length) ∧
    ((phoneNumbers raw).flatten).Sublist raw ∧
    phoneNumbers [] = [] := by
  refine ⟨?_, ?_, rfl⟩
  · intro piece hp
    by_cases hraw : raw = []
    · simp [phoneNumbers, hraw] at hp
    · simp only [phoneNumbers, hraw, if_false] at hp
      have := (List.mem_filter.mp hp).2
      exact of_decide_eq_true this
  · by_cases hraw : raw = []
    · simp [phoneNumbers, hraw]
    · simp only [phoneNumbers, hraw, if_false]
      have h1 : ((((jsSplitRuns isPhoneDelim raw).map jsTrim).filter
          (fun s => decide (3 < s.length))).flatten).Sublist
          (((jsSplitRuns isPhoneDelim raw).map jsTrim).flatten) :=
        flatten_sublist_of_sublist (List.filter_sublist _)
      have h2 := map_jsTrim_flatten_sublist (jsSplitRuns isPhoneDelim raw)
      have h3 : ((jsSplitRuns isPhoneDelim raw).flatten).Sublist raw := by
        simpa [jsSplitRuns] using splitRunsCore_flatten_sublist isPhoneDelim raw [] false
      exact (h1.trans h2).trans h3

/-- C2 witness: the segmentation contract instantiated at the concrete input
`+1234,+5678`. -/
theorem phoneNumbers_segmentation_witness :
    (∀ piece ∈ phoneNumbers "+1234,+5678".toList, 3 < piece.length) ∧
    ((phoneNumbers "+1234,+5678".toList).flatten).Sublist "+1234,+5678".toList ∧
    phoneNumbers [] = [] :=
  phoneNumbers_segmentation "+1234,+5678".toList

/-- C1 (amended): for every input string the phone normalizer returns a string
beginning with a plus sign whose every subsequent character is a digit or a
plus sign (the strip keeps every plus sign of the input, not only a leading
one); when the input contains no plus sign at all, every character after the
leading plus sign is a digit. -/
theorem normalizePhone_shape (phone : Str) :
    (∃ t, normalizePhone phone = '+' :: t) ∧
    (∀ c ∈ (normalizePhone phone).drop 1, c.isDigit = true ∨ c = '+') ∧
    ('+' ∉ phone → ∀ c ∈ (normalizePhone phone).drop 1, c.isDigit = true) := by
  have hclean : ∀ c ∈ phone.filter (fun c => c.isDigit || c == '+'),
      c.isDigit = true ∨ c = '+' := fun c hc => mem_phoneFilter hc
  have hnoplus : '+' ∉ phone → ∀ c ∈ phone.filter (fun c => c.isDigit || c == '+'),
      c.isDigit = true := by
    intro hnp c hc
    rcases mem_phoneFilter hc with h | h
    · exact h
    · exact absurd ((List.mem_filter.mp hc).1) (by simpa [h] using hnp)
  unfold normalizePhone
  by_cases h00 : ("00".toList).isPrefixOf (phone.filter (fun c => c.isDigit || c == '+')) = true
  · simp only [h00, if_true]
    refine ⟨⟨_, rfl⟩, ?_, ?_⟩
    · intro c hc
      simp only [List.drop_succ_cons, List.drop_zero] at hc
      exact hclean c (List.mem_of_mem_drop hc)
    · intro hnp c hc
      simp only [List.drop_succ_cons, List.drop_zero] at hc
      exact hnoplus hnp c (List.mem_of_mem_drop hc)
  · simp only [h00, if_false]
    by_cases hpl : (['+']).isPrefixOf (phone.filter (fun c => c.isDigit || c == '+')) = true
    · simp only [hpl, if_true]
      rcases List.isPrefixOf_iff_prefix.mp hpl with ⟨t, ht⟩
      have ht2 : phone.filter (fun c => c.isDigit || c == '+') = '+' :: t := by
        rw [← ht]; rfl
      rw [ht2]
      refine ⟨⟨t, rfl⟩, ?_, ?_⟩
      · intro c hc
        simp only [List.drop_succ_cons, List.drop_zero] at hc
        have : c ∈ phone.filter (fun c => c.isDigit || c == '+') := by
          rw [ht2]; exact List.mem_cons_of_mem _ hc
        exact hclean c this
      · intro hnp c hc
        simp only [List.drop_succ_cons, List.drop_zero] at hc
        have : c ∈ phone.filter (fun c => c.isDigit || c == '+') := by
          rw [ht2]; exact List.mem_cons_of_mem _ hc
        exact hnoplus hnp c this
    · simp only [hpl, if_false]
      refine ⟨⟨_, rfl⟩, ?_, ?_⟩
      · intro c hc
        exact hclean c (by simpa using hc)
      · intro hnp c hc
        exact hnoplus hnp c (by simpa using hc)

/-- C1 counterexample: on the input `1+2` the normalizer returns `+1+2`, so the
output is not a plus sign followed only by digits. -/
theorem normalizePhone_counterexample :
    normalizePhone "1+2".toList = "+1+2".toList ∧
    ¬ ∀ c ∈ (normalizePhone "1+2".toList).drop 1, c.isDigit = true := by
  decide

/-- C1 witness: the amended shape theorem applied at the concrete input
`abc124`, which contains no plus sign, so the tail is all digits. -/
theorem normalizePhone_shape_witness :
    ('+' ∉ "abc124".toList) ∧
    ∀ c ∈ (normalizePhone "abc124".toList).drop 1, c.isDigit = true :=
  ⟨by decide, (normalizePhone_shape "abc124".toList).2.2 (by decide)⟩

/-- `findIdxP` returns `none` exactly when no element satisfies the predicate. -/
theorem findIdxP_eq_none_iff (p : Str → Bool) (l : List Str) :
    findIdxP p l = none ↔ ∀ x ∈ l, p x = false := by
  induction l with
  | nil => simp [findIdxP]
  | cons y ys ih =>
    by_cases hy : p y = true
    · simp [findIdxP, hy]
    · have hy2 : p y = false := by simpa using hy
      simp [findIdxP, hy2, List.forall_mem_cons, ih]

/-- A successful `findIdxP` finds the first index whose element satisfies the
predicate. -/
theorem findIdxP_some_spec (p : Str → Bool) :
    ∀ (l : List Str) (i : Nat), findIdxP p l = some i →
      i < l.length ∧ p (l.getD i []) = true ∧ ∀ j, j < i → p (l.getD j []) = false := by
  intro l
  induction l with
  | nil => intro i h; simp [findIdxP] at h
  | cons y ys ih =>
    intro i h
    by_cases hy : p y = true
    · simp [findIdxP, hy] at h
      subst h
      refine ⟨by simp, by simpa using hy, ?_⟩
      intro j hj
      omega
    · have hy2 : p y = false := by simpa using hy
      simp [findIdxP, hy2] at h
      rcases h with ⟨i2, hi2, rfl⟩
      rcases ih i2 hi2 with ⟨hlt, hp, hfirst⟩
      refine ⟨by simpa using Nat.succ_lt_succ hlt, by simpa using hp, ?_⟩
      intro j hj
      cases j with
      | zero => simpa using hy2
      | succ j2 => simpa using hfirst j2 (by omega)

/-- Conversely, the first matching index is what `findIdxP` returns. -/
theorem findIdxP_first (p : Str → Bool) :
    ∀ (l : List Str) (i : Nat), i < l.length → p (l.getD i []) = true →
      (∀ j, j < i → p (l.getD j []) = false) → findIdxP p l = some i := by
  intro l
  induction l with
  | nil => intro i hi _ _; simp at hi
  | cons y ys ih =>
    intro i hi hp hfirst
    cases i with
    | zero =>
      have hy : p y = true := by simpa using hp
      simp [findIdxP, hy]
    | succ i2 =>
      have hy : p y = false := by simpa using hfirst 0 (Nat.succ_pos _)
      have hrec := ih i2 (by simpa using hi) (by simpa using hp)
        (fun j hj => by simpa using hfirst (j + 1) (by omega))
      simp [findIdxP, hy, hrec]

/-- `getD` commutes with mapping `lowerStr` (the default is preserved because
lowering the empty string gives the empty string). -/
theorem getD_map_lowerStr (headers : List Str) (j : Nat) :
    (headers.map lowerStr).getD j [] = lowerStr (headers.getD j []) := by
  induction headers generalizing j with
  | nil => simp [lowerStr]
  | cons y ys ih =>
    cases j with
    | zero => simp
    | succ j2 => simpa using ih j2

/-- Out-of-range `getD` yields the default. -/
theorem getD_eq_default_of_le {l : List Str} {n : Nat} (h : l.length ≤ n) :
    l.getD n [] = [] := by
  induction l generalizing n with
  | nil => simp
  | cons y ys ih =>
    cases n with
    | zero => simp at h
    | succ n2 => simpa using ih (by simpa using h)

/-- Every position of the input list contributes its image to `mapWithIndex`. -/
theorem mem_mapWithIndex_of_lt {α β : Type} (f : Nat → α → β) (d : α) :
    ∀ (l : List α) (k i : Nat), i < l.length →
      f (k + i) (l.getD i d) ∈ mapWithIndex f k l := by
  intro l
  induction l with
  | nil => intro k i hi; simp at hi
  | cons a as ih =>
    intro k i hi
    cases i with
    | zero => simp [mapWithIndex]
    | succ i2 =>
      have hrec := ih (k + 1) i2 (by simpa using hi)
      have e : k + (i2 + 1) = (k + 1) + i2 := by omega
      simp only [mapWithIndex, List.getD_cons_succ, e]
      exact List.mem_cons_of_mem _ hrec

/-- The row filter of `processExcelData` keeps a record exactly when company,
phone and email are not all empty. -/
theorem keepRecord_iff (c : Customer) :
    keepRecord c = true ↔ ¬(c.company = [] ∧ c.phone = [] ∧ c.email = []) := by
  simp [keepRecord, not_and_or]
  tauto

/-- C6: for every header list and keyword list, the scan assigns the first
header, in original left-to-right order and compared case-insensitively, whose
lowercase form contains some keyword of the list; when no header matches the
result is the empty string (the none mapping); and every canonical field of
`autoMapColumns` is this scan over its fixed keyword list (for phone: tel,
phone, mobile, cel).  The functions are total, so no input causes an error. -/
theorem autoMapColumns_first_keyword_match (prev : ColumnMapping)
    (headers keywords : List Str) :
    ((∀ h ∈ headers, headerMatches keywords h = false) → findMatch headers keywords = []) ∧
    (∀ i, i < headers.length → headerMatches keywords (headers.getD i []) = true →
      (∀ j, j < i → headerMatches keywords (headers.getD j []) = false) →
      findMatch headers keywords = headers.getD i []) ∧
    (autoMapColumns prev headers).company = findMatch headers companyKeywords ∧
    (autoMapColumns prev headers).representative = findMatch headers representativeKeywords ∧
    (autoMapColumns prev headers).phone = findMatch headers phoneKeywords ∧
    (autoMapColumns prev headers).email = findMatch headers emailKeywords ∧
    (autoMapColumns prev headers).country = findMatch headers countryKeywords ∧
    (autoMapColumns prev headers).website = findMatch headers websiteKeywords ∧
    (autoMapColumns prev headers).notes = findMatch headers notesKeywords := by
  refine ⟨?_, ?_, rfl, rfl, rfl, rfl, rfl, rfl, rfl⟩
  · intro hnone
    have hidx : findIdxP (fun h => keywords.any (fun k => containsSub h k))
        (headers.map lowerStr) = none := by
      rw [findIdxP_eq_none_iff]
      intro x hx
      rcases List.mem_map.mp hx with ⟨h, hh, rfl⟩
      exact hnone h hh
    simp [findMatch, hidx]
  · intro i hi hp hfirst
    have hidx : findIdxP (fun h => keywords.any (fun k => containsSub h k))
        (headers.map lowerStr) = some i := by
      apply findIdxP_first
      · simpa using hi
      · rw [getD_map_lowerStr]
        exact hp
      · intro j hj
        rw [getD_map_lowerStr]
        exact hfirst j hj
    simp [findMatch, hidx]

/-- C6 witness: on the scenario headers, the phone field is assigned `Tel`,
the first (and only) header containing a phone keyword. -/
theorem autoMapColumns_first_keyword_match_witness :
    findMatch hdrsW phoneKeywords = hdrsW.getD 2 [] :=
  (autoMapColumns_first_keyword_match mappingW hdrsW phoneKeywords).2.1 2 (by decide)
    (by decide) (by intro j hj; interval_cases j <;> decide)

/-- C3: for every header list, row and mapped header name, the field value is
empty when the field maps to none (empty header name) or the header is absent
or its column index is beyond the row, and otherwise is the cell trimmed of
whitespace; and a built record is in the output exactly when company, phone
and email are not all empty. -/
theorem processExcelData_normalization :
    (∀ (headers row : List Str) (h : Str),
      (h = [] → getVal headers row h = []) ∧
      ((∀ x ∈ headers, x ≠ h) → getVal headers row h = []) ∧
      (∀ i, i < headers.length → headers.getD i [] = h → h ≠ [] →
        (∀ j, j < i → headers.getD j [] ≠ h) →
        ((row.length ≤ i → getVal headers row h = []) ∧
          (i < row.length → getVal headers row h = jsTrim (row.getD i []))))) ∧
    (∀ (headers : List Str) (mapping : ColumnMapping) (now : Nat)
      (rows : List (List Str)) (i : Nat), i < rows.length →
      (buildRecord headers mapping now i (rows.getD i []) ∈
          processExcelData headers rows mapping now ↔
        ¬((buildRecord headers mapping now i (rows.getD i [])).company = [] ∧
          (buildRecord headers mapping now i (rows.getD i [])).phone = [] ∧
          (buildRecord headers mapping now i (rows.getD i [])).email = []))) := by
  constructor
  · intro headers row h
    refine ⟨?_, ?_, ?_⟩
    · intro hh
      simp [getVal, hh]
    · intro hnone
      have hidx : findIdxP (fun x => x == h) headers = none := by
        rw [findIdxP_eq_none_iff]
        intro x hx
        simpa using hnone x hx
      by_cases hh : h = []
      · simp [getVal, hh]
      · simp [getVal, hh, hidx]
    · intro i hi hhead hh hfirst
      have hidx : findIdxP (fun x => x == h) headers = some i := by
        apply findIdxP_first
        · exact hi
        · simpa using hhead
        · intro j hj
          simpa using hfirst j hj
      constructor
      · intro hlen
        have hval : getVal headers row h = jsTrim (row.getD i []) := by
          simp [getVal, hh, hidx]
        rw [hval, getD_eq_default_of_le hlen]
        rfl
      · intro _
        simp [getVal, hh, hidx]
  · intro headers mapping now rows i hi
    constructor
    · intro hmem
      exact (keepRecord_iff _).mp ((List.mem_filter.mp hmem).2)
    · intro hne
      apply List.mem_filter.mpr
      refine ⟨?_, (keepRecord_iff _).mpr hne⟩
      have hrec := mem_mapWithIndex_of_lt
        (fun index row => buildRecord headers mapping now index row) [] rows 0 i hi
      simpa using hrec

/-- C3 witness: the scenario record built from the scenario row is in the
output, its company being non-empty. -/
theorem processExcelData_normalization_witness :
    buildRecord hdrsW mappingW 7 0 (rowsW.getD 0 []) ∈
        processExcelData hdrsW rowsW mappingW 7 ↔
      ¬((buildRecord hdrsW mappingW 7 0 (rowsW.getD 0 [])).company = [] ∧
        (buildRecord hdrsW mappingW 7 0 (rowsW.getD 0 [])).phone = [] ∧
        (buildRecord hdrsW mappingW 7 0 (rowsW.getD 0 [])).email = []) :=
  processExcelData_normalization.2 hdrsW mappingW 7 rowsW 0 (by decide)

/-- When the customer is not found, `handleSave` returns the state unchanged. -/
theorem handleSave_of_find_none {s : AppState} {id : Str}
    (h : s.customers.find? (fun c => c.id == id) = none) : handleSave id s = s := by
  unfold handleSave
  rw [h]

/-- When no draft is stored for the id, `handleSave` returns the state
unchanged. -/
theorem handleSave_of_msg_none {s : AppState} {id : Str}
    (h : s.generatedMessages id = none) : handleSave id s = s := by
  unfold handleSave
  rw [h]
  cases s.customers.find? (fun c => c.id == id) <;> rfl

/-- C4: if the customer is in the working set and has a stored draft (and, per
the disjointness invariant, is not already archived), then after `handleSave`
its id is gone from the working set and from the draft store and occurs exactly
once in the archive, and a second `handleSave` on the resulting state changes
nothing; when the customer or its draft is missing, `handleSave` leaves the
whole state unchanged (it is total, so it never raises). -/
theorem handleSave_archive (s : AppState) (id : Str) :
    ((∃ c ∈ s.customers, c.id = id) → (s.generatedMessages id).isSome = true →
      (∀ it ∈ s.savedItems, it.customer.id ≠ id) →
      ((∀ c ∈ (handleSave id s).customers, c.id ≠ id) ∧
        (handleSave id s).generatedMessages id = none ∧
        (handleSave id s).savedItems.countP (fun it => it.customer.id == id) = 1 ∧
        handleSave id (handleSave id s) = handleSave id s)) ∧
    (((∀ c ∈ s.customers, c.id ≠ id) ∨ s.generatedMessages id = none) →
      handleSave id s = s) := by
  constructor
  · intro hc hm hA
    rcases Option.isSome_iff_exists.mp hm with ⟨m, hmm⟩
    cases hfind : s.customers.find? (fun c => c.id == id) with
    | none =>
      rcases hc with ⟨c, hcmem, hcid⟩
      have := List.find?_eq_none.mp hfind c hcmem
      simp [hcid] at this
    | some c =>
      have hcid : c.id = id := by simpa using List.find?_some hfind
      have hres : handleSave id s =
          handleDelete id { s with savedItems := s.savedItems ++ [⟨c, m⟩] } := by
        unfold handleSave
        rw [hfind, hmm]
      refine ⟨?_, ?_, ?_, ?_⟩
      · intro x hx
        rw [hres] at hx
        simp only [handleDelete, List.mem_filter] at hx
        simpa using hx.2
      · rw [hres]
        simp [handleDelete, hmm]
      · rw [hres]
        simp only [handleDelete]
        rw [List.countP_append]
        have h0 : s.savedItems.countP (fun it => it.customer.id == id) = 0 := by
          rw [List.countP_eq_zero]
          intro it hit
          simpa using hA it hit
        simp [h0, List.countP_singleton, hcid]
      · apply handleSave_of_find_none
        rw [List.find?_eq_none]
        intro x hx
        rw [hres] at hx
        simp only [handleDelete, List.mem_filter] at hx
        simpa using hx.2
  · intro h
    rcases h with h | h
    · apply handleSave_of_find_none
      rw [List.find?_eq_none]
      intro x hx
      simpa using h x hx
    · exact handleSave_of_msg_none h

/-- C4 witness: archiving the single active drafted customer of the concrete
state empties the working set, clears its draft, archives it once, and a second
archive call is a no-op. -/
theorem handleSave_archive_witness :
    (∀ c ∈ (handleSave "x".toList stateW).customers, c.id ≠ "x".toList) ∧
    (handleSave "x".toList stateW).generatedMessages "x".toList = none ∧
    (handleSave "x".toList stateW).savedItems.countP
      (fun it => it.customer.id == "x".toList) = 1 ∧
    handleSave "x".toList (handleSave "x".toList stateW) = handleSave "x".toList stateW :=
  (handleSave_archive stateW "x".toList).1 ⟨custW, by decide, rfl⟩ (by decide) (by decide)

/-- C5: whenever the generation call fails (it throws, or returns no text),
`generateDraft` returns exactly the fixed fallback message, whose subject is
`Follow up` and whose body is `Error generating draft.`, and the caller's store
update records exactly that fallback for the customer id. -/
theorem generateDraft_failure_fallback (r : DraftCallResult) (hr : isDraftFailure r) :
    generateDraft r = fallbackDraft ∧
    fallbackDraft.subject = "Follow up".toList ∧
    fallbackDraft.body = "Error generating draft.".toList ∧
    ∀ (msgs : Str → Option GeneratedMessage) (id : Str),
      storeDraft id (generateDraft r) msgs id = some fallbackDraft := by
  have hgen : generateDraft r = fallbackDraft := by
    rcases hr with rfl | rfl <;> rfl
  refine ⟨hgen, rfl, rfl, ?_⟩
  intro msgs id
  simp [storeDraft, hgen]

/-- C5 witness: the fallback theorem applied to a throwing generation call. -/
theorem generateDraft_failure_fallback_witness :
    generateDraft .failure = fallbackDraft ∧
    storeDraft "x".toList (generateDraft .failure) (fun _ => none) "x".toList =
      some fallbackDraft :=
  ⟨(generateDraft_failure_fallback .failure (Or.inl rfl)).1,
    (generateDraft_failure_fallback .failure (Or.inl rfl)).2.2.2 (fun _ => none) "x".toList⟩

/-- Decimal rendering is correct for every number below the fuel bound. -/
theorem decVal_natDecAux : ∀ (fuel n : Nat), n < fuel → decVal (natDecAux fuel n) = n := by
  intro fuel
  induction fuel with
  | zero => intro n hn; omega
  | succ fuel ih =>
    intro n hn
    by_cases h10 : n < 10
    · interval_cases n <;> simp [natDecAux] <;> decide
    · have hstep : natDecAux (fuel + 1) n = natDecAux fuel (n / 10) ++ [digitChar (n % 10)] := by
        simp [natDecAux, h10]
      have hdiv : n / 10 < fuel := by
        have h1 : n / 10 < n := Nat.div_lt_self (by omega) (by omega)
        omega
      have hih := ih (n / 10) hdiv
      have hdig : (digitChar (n % 10)).toNat - 48 = n % 10 := by
        have : n % 10 < 10 := Nat.mod_lt _ (by omega)
        interval_cases h : n % 10 <;> simp [digitChar]
      rw [hstep]
      unfold decVal
      rw [List.foldl_append]
      unfold decVal at hih
      rw [hih]
      simp only [List.foldl_cons, List.foldl_nil]
      rw [hdig]
      omega

/-- Decimal rendering of naturals, as JavaScript template literals do, is
injective. -/
theorem natDec_injective {a b : Nat} (h : natDec a = natDec b) : a = b := by
  have ha := decVal_natDecAux (a + 1) a (by omega)
  have hb := decVal_natDecAux (b + 1) b (by omega)
  unfold natDec at h
  rw [← ha, ← hb, h]

/-- Distinct row indices give distinct Excel-batch ids, even for the same
timestamp. -/
theorem makeXlsId_injective {now i j : Nat} (h : makeXlsId now i = makeXlsId now j) :
    i = j := by
  unfold makeXlsId at h
  have h1 := List.append_cancel_left h
  exact natDec_injective (List.cons.injEq .. |>.mp h1).2

/-- Distinct row indices give distinct image-batch ids, even for the same
timestamp. -/
theorem makeImgId_injective {now i j : Nat} (h : makeImgId now i = makeImgId now j) :
    i = j := by
  unfold makeImgId at h
  have h1 := List.append_cancel_left h
  exact natDec_injective (List.cons.injEq .. |>.mp h1).2

/-- Every element of `mapWithIndex f k l` is the image of some index at least
`k`. -/
theorem mem_mapWithIndex_exists {α : Type} (f : Nat → α → Customer) :
    ∀ (l : List α) (k : Nat) (b : Customer), b ∈ mapWithIndex f k l →
      ∃ m x, k ≤ m ∧ b = f m x := by
  intro l
  induction l with
  | nil => intro k b hb; simp [mapWithIndex] at hb
  | cons a as ih =>
    intro k b hb
    rcases List.mem_cons.mp hb with hb | hb
    · exact ⟨k, a, Nat.le_refl k, hb⟩
    · rcases ih (k + 1) b hb with ⟨m, x, hm, hbx⟩
      exact ⟨m, x, by omega, hbx⟩

/-- Indexed mapping with an id-injective builder yields pairwise distinct ids. -/
theorem mapWithIndex_pairwise_id {α : Type} (f : Nat → α → Customer)
    (hf : ∀ i j x y, i ≠ j → (f i x).id ≠ (f j y).id) :
    ∀ (l : List α) (k : Nat),
      (mapWithIndex f k l).Pairwise (fun a b => a.id ≠ b.id) := by
  intro l
  induction l with
  | nil => intro k; exact List.Pairwise.nil
  | cons a as ih =>
    intro k
    refine List.Pairwise.cons ?_ (ih (k + 1))
    intro b hb
    rcases mem_mapWithIndex_exists f as (k + 1) b hb with ⟨m, x, hm, rfl⟩
    exact hf k m a x (by omega)

/-- C9: within one ingestion batch (one Excel processing call, one extraction
call), even with an identical timestamp component for every record, the
assigned ids are pairwise distinct. -/
theorem ingestion_ids_pairwise (headers : List Str) (mapping : ColumnMapping)
    (now : Nat) (rows : List (List Str)) (parsed : List ParsedExtractCustomer) :
    (processExcelData headers rows mapping now).Pairwise (fun a b => a.id ≠ b.id) ∧
    (imgCustomers now parsed).Pairwise (fun a b => a.id ≠ b.id) := by
  constructor
  · apply List.Pairwise.sublist (List.filter_sublist _)
    apply mapWithIndex_pairwise_id
    intro i j x y hij h
    exact hij (makeXlsId_injective h)
  · apply mapWithIndex_pairwise_id
    intro i j x y hij h
    exact hij (makeImgId_injective h)

/-- C9 witness: pairwise-distinct ids on a concrete two-row batch with one
shared timestamp. -/
theorem ingestion_ids_pairwise_witness :
    (processExcelData hdrsW (rowsW ++ rowsW) mappingW 7).Pairwise
      (fun a b => a.id ≠ b.id) ∧
    (imgCustomers 7 []).Pairwise (fun a b => a.id ≠ b.id) :=
  ingestion_ids_pairwise hdrsW mappingW 7 (rowsW ++ rowsW) []

/-- C7 (amended): for every non-empty phone string and present message, the
link builder returns exactly the variant template applied to the normalized
phone and the URL-encoded chat text, with no validation (it is total, so it
never throws) and never the sentinel; when the phone is empty or the message
is absent, it returns the sentinel `#` instead of a best-effort URI. -/
theorem getWhatsappLink_templates (gm : GeneratedMessage) (phone : Str)
    (t : LinkVariant) (hp : phone ≠ []) :
    (getWhatsappLink (some gm) phone LinkVariant.web =
      "https://wa.me/".toList ++ removeFirstPlus (normalizePhone phone) ++
        "?text=".toList ++ encodeURIComponent (jsOrStr gm.whatsappBody gm.body)) ∧
    (getWhatsappLink (some gm) phone LinkVariant.app =
      "whatsapp://send?phone=".toList ++ removeFirstPlus (normalizePhone phone) ++
        "&text=".toList ++ encodeURIComponent (jsOrStr gm.whatsappBody gm.body)) ∧
    (getWhatsappLink (some gm) phone LinkVariant.business =
      "intent://send?phone=".toList ++ removeFirstPlus (normalizePhone phone) ++
        "&text=".toList ++ encodeURIComponent (jsOrStr gm.whatsappBody gm.body) ++
        "#Intent;package=com.whatsapp.w4b;scheme=whatsapp;end".toList) ∧
    getWhatsappLink (some gm) phone t ≠ "#".toList ∧
    getWhatsappLink (some gm) [] t = "#".toList ∧
    getWhatsappLink none phone t = "#".toList := by
  have hweb : getWhatsappLink (some gm) phone LinkVariant.web =
      "https://wa.me/".toList ++ removeFirstPlus (normalizePhone phone) ++
        "?text=".toList ++ encodeURIComponent (jsOrStr gm.whatsappBody gm.body) := by
    simp [getWhatsappLink, hp]
  have happ : getWhatsappLink (some gm) phone LinkVariant.app =
      "whatsapp://send?phone=".toList ++ removeFirstPlus (normalizePhone phone) ++
        "&text=".toList ++ encodeURIComponent (jsOrStr gm.whatsappBody gm.body) := by
    simp [getWhatsappLink, hp]
  have hbiz : getWhatsappLink (some gm) phone LinkVariant.business =
      "intent://send?phone=".toList ++ removeFirstPlus (normalizePhone phone) ++
        "&text=".toList ++ encodeURIComponent (jsOrStr gm.whatsappBody gm.body) ++
        "#Intent;package=com.whatsapp.w4b;scheme=whatsapp;end".toList := by
    simp [getWhatsappLink, hp]
  refine ⟨hweb, happ, hbiz, ?_, by simp [getWhatsappLink], rfl⟩
  cases t with
  | web =>
    rw [hweb]
    intro hcontra
    have hlen := congrArg List.length hcontra
    simp only [List.length_append] at hlen
    have h14 : ("https://wa.me/".toList).length = 14 := by decide
    have h1 : ("#".toList).length = 1 := by decide
    rw [h14, h1] at hlen
    omega
  | app =>
    rw [happ]
    intro hcontra
    have hlen := congrArg List.length hcontra
    simp only [List.length_append] at hlen
    have h22 : ("whatsapp://send?phone=".toList).length = 22 := by decide
    have h1 : ("#".toList).length = 1 := by decide
    rw [h22, h1] at hlen
    omega
  | business =>
    rw [hbiz]
    intro hcontra
    have hlen := congrArg List.length hcontra
    simp only [List.length_append] at hlen
    have h20 : ("intent://send?phone=".toList).length = 20 := by decide
    have h1 : ("#".toList).length = 1 := by decide
    rw [h20, h1] at hlen
    omega

/-- C7 counterexample: with a message present and the empty phone string, the
link builder returns the sentinel `#`, not the web-variant template URI. -/
theorem getWhatsappLink_empty_counterexample :
    getWhatsappLink (some msgW) [] LinkVariant.web = "#".toList ∧
    getWhatsappLink (some msgW) [] LinkVariant.web ≠
      "https://wa.me/".toList ++ removeFirstPlus (normalizePhone []) ++
        "?text=".toList ++ encodeURIComponent (jsOrStr msgW.whatsappBody msgW.body) := by
  constructor
  · rfl
  · decide

/-- C7 witness: the amended template theorem applied at a concrete non-empty
phone. -/
theorem getWhatsappLink_templates_witness :
    getWhatsappLink (some msgW) "+1234".toList LinkVariant.web =
      "https://wa.me/".toList ++ removeFirstPlus (normalizePhone "+1234".toList) ++
        "?text=".toList ++ encodeURIComponent (jsOrStr msgW.whatsappBody msgW.body) :=
  (getWhatsappLink_templates msgW "+1234".toList LinkVariant.web (by decide)).1

/-- Parsing a quoted field: a quote-free payload followed by the closing quote
and a rest not starting with a quote parses back exactly. -/
theorem parseQuotedField_append (f r : Str) (hf : '"' ∉ f) (hr : r.head? ≠ some '"') :
    parseQuotedField (f ++ '"' :: r) = some (f, r) := by
  induction f with
  | nil =>
    simp only [List.nil_append]
    cases r with
    | nil => rfl
    | cons c2 r2 =>
      have hc2 : c2 ≠ '"' := by
        intro h
        exact hr (by simp [h])
      simp [parseQuotedField, hc2]
  | cons c cs ih =>
    have hc : c ≠ '"' := fun h => hf (by simp [h])
    have hcs : '"' ∉ cs := fun h => hf (List.mem_cons_of_mem _ h)
    rw [List.cons_append, parseQuotedField.eq_def]
    simp [hc, ih hcs]

/-- A line of quote-free double-quoted fields parses back to exactly those
fields. -/
theorem parseCsvLine_mkQuotedLine :
    ∀ fs : List Str, fs ≠ [] → (∀ f ∈ fs, '"' ∉ f) →
      parseCsvLine fs.length (mkQuotedLine fs) = some fs := by
  intro fs
  induction fs with
  | nil => intro h; exact absurd rfl h
  | cons f fs ih =>
    intro _ hq
    have hf : '"' ∉ f := hq f (List.mem_cons_self ..)
    cases fs with
    | nil =>
      have hpq := parseQuotedField_append f [] hf (by simp)
      have e : mkQuotedLine [f] = '"' :: (f ++ '"' :: []) := by
        simp [mkQuotedLine, quoteField]
      rw [e]
      simp [parseCsvLine, hpq]
    | cons g gs =>
      have hq2 : ∀ x ∈ g :: gs, '"' ∉ x := fun x hx => hq x (List.mem_cons_of_mem _ hx)
      have hih := ih (by simp) hq2
      have hpq := parseQuotedField_append f (',' :: mkQuotedLine (g :: gs)) hf (by simp)
      have e : mkQuotedLine (f :: g :: gs) =
          '"' :: (f ++ '"' :: (',' :: mkQuotedLine (g :: gs))) := by
        simp [mkQuotedLine, quoteField]
      simp only [List.length_cons] at hih ⊢
      rw [e, parseCsvLine.eq_def]
      simp [hpq, hih]

/-- Splitting at newlines is the identity on newline-free strings. -/
theorem splitNl_no_newline {x : Str} (hx : '\n' ∉ x) : splitNl x = [x] := by
  induction x with
  | nil => rfl
  | cons c cs ih =>
    have hc : c ≠ '\n' := fun h => hx (by simp [h])
    have hcs : '\n' ∉ cs := fun h => hx (List.mem_cons_of_mem _ h)
    simp [splitNl, hc, ih hcs]

/-- Splitting recovers the first newline-free line. -/
theorem splitNl_append_cons {x : Str} (r : Str) (hx : '\n' ∉ x) :
    splitNl (x ++ '\n' :: r) = x :: splitNl r := by
  induction x with
  | nil => simp [splitNl]
  | cons c cs ih =>
    have hc : c ≠ '\n' := fun h => hx (by simp [h])
    have hcs : '\n' ∉ cs := fun h => hx (List.mem_cons_of_mem _ h)
    simp [splitNl, hc, ih hcs]

/-- Splitting at newlines undoes joining with newlines for newline-free lines. -/
theorem splitNl_joinNl :
    ∀ ls : List Str, ls ≠ [] → (∀ l ∈ ls, '\n' ∉ l) → splitNl (joinNl ls) = ls := by
  intro ls
  induction ls with
  | nil => intro h; exact absurd rfl h
  | cons x xs ih =>
    intro _ hl
    have hx : '\n' ∉ x := hl x (List.mem_cons_self ..)
    cases xs with
    | nil => simpa [joinNl] using splitNl_no_newline hx
    | cons g gs =>
      have hl2 : ∀ l ∈ g :: gs, '\n' ∉ l := fun l h => hl l (List.mem_cons_of_mem _ h)
      have e : joinNl (x :: g :: gs) = x ++ '\n' :: joinNl (g :: gs) := by
        simp [joinNl]
      rw [e, splitNl_append_cons _ hx, ih (by simp) hl2]

/-- A quoted CSV-special-free field contains no newline. -/
theorem newline_not_mem_quoteField {s : Str} (hs : noSpecialStr s) :
    '\n' ∉ quoteField s := by
  intro h
  have h2 : '\n' = '"' ∨ '\n' ∈ s := by simpa [quoteField] using h
  rcases h2 with h2 | h2
  · exact absurd h2 (by decide)
  · exact (hs _ h2).2.2 rfl

/-- A quoted line of newline-free fields contains no newline. -/
theorem newline_not_mem_mkQuotedLine :
    ∀ fs : List Str, (∀ f ∈ fs, noSpecialStr f) → '\n' ∉ mkQuotedLine fs := by
  intro fs
  induction fs with
  | nil => intro _ h; simp [mkQuotedLine] at h
  | cons f fs ih =>
    intro hq
    have hf := hq f (List.mem_cons_self ..)
    cases fs with
    | nil =>
      have e : mkQuotedLine [f] = quoteField f := by simp [mkQuotedLine]
      rw [e]
      exact newline_not_mem_quoteField hf
    | cons g gs =>
      have hq2 : ∀ x ∈ g :: gs, noSpecialStr x := fun x hx => hq x (List.mem_cons_of_mem _ hx)
      intro h
      have e : mkQuotedLine (f :: g :: gs) =
          quoteField f ++ ',' :: mkQuotedLine (g :: gs) := by
        simp [mkQuotedLine]
      rw [e] at h
      simp only [List.mem_append, List.mem_cons] at h
      rcases h with h | h | h
      · exact newline_not_mem_quoteField hf h
      · exact absurd h (by decide)
      · exact ih hq2 h

/-- C8: the exported CSV text is the data-URI head, the fixed six-column header
line, and one double-quoted-verbatim row per archived entry with constant
Status `Processed`, joined by newlines; and for entries free of CSV-special
characters a standard CSV parser recovers the lines and the exact field
values. -/
theorem csvExport_shape (items : List SavedItem) :
    csvContent items =
      "data:text/csv;charset=utf-8,".toList ++ joinNl (csvHeaderLine :: items.map csvRow) ∧
    (items.map csvRow).length = items.length ∧
    (∀ it : SavedItem, csvRow it =
      mkQuotedLine [it.customer.company, it.customer.representative, it.customer.phone,
        it.customer.email, it.customer.notes, "Processed".toList]) ∧
    ((∀ it ∈ items, noSpecialItem it) →
      splitNl (csvBody items) = csvHeaderLine :: items.map csvRow) ∧
    (∀ it : SavedItem, noSpecialItem it →
      parseCsvLine 6 (csvRow it) =
        some [it.customer.company, it.customer.representative, it.customer.phone,
          it.customer.email, it.customer.notes, "Processed".toList]) := by
  refine ⟨rfl, List.length_map .., fun it => rfl, ?_, ?_⟩
  · intro hits
    apply splitNl_joinNl _ (by simp)
    intro l hl
    rcases List.mem_cons.mp hl with rfl | hl
    · decide
    · rcases List.mem_map.mp hl with ⟨it, hit, rfl⟩
      obtain ⟨h1, h2, h3, h4, h5⟩ := hits it hit
      have e : csvRow it =
          mkQuotedLine [it.customer.company, it.customer.representative, it.customer.phone,
            it.customer.email, it.customer.notes, "Processed".toList] := rfl
      rw [e]
      apply newline_not_mem_mkQuotedLine
      intro f hf
      simp only [List.mem_cons, List.not_mem_nil, or_false] at hf
      rcases hf with rfl | rfl | rfl | rfl | rfl | rfl
      · exact h1
      · exact h2
      · exact h3
      · exact h4
      · exact h5
      · decide
  · intro it hit
    obtain ⟨h1, h2, h3, h4, h5⟩ := hit
    have e : csvRow it =
        mkQuotedLine [it.customer.company, it.customer.representative, it.customer.phone,
          it.customer.email, it.customer.notes, "Processed".toList] := rfl
    have hfs : ∀ f ∈ [it.customer.company, it.customer.representative, it.customer.phone,
        it.customer.email, it.customer.notes, "Processed".toList], '"' ∉ f := by
      intro f hf
      simp only [List.mem_cons, List.not_mem_nil, or_false] at hf
      have noq : ∀ s : Str, noSpecialStr s → '"' ∉ s := fun s hs h => (hs _ h).1 rfl
      rcases hf with rfl | rfl | rfl | rfl | rfl | rfl
      · exact noq _ h1
      · exact noq _ h2
      · exact noq _ h3
      · exact noq _ h4
      · exact noq _ h5
      · decide
    have hp := parseCsvLine_mkQuotedLine [it.customer.company, it.customer.representative,
      it.customer.phone, it.customer.email, it.customer.notes, "Processed".toList]
      (by simp) hfs
    rw [e]
    simpa using hp

/-- C8 witness: the concrete archived entry round-trips through the parser to
its original field values with Status `Processed`. -/
theorem csvExport_shape_witness :
    parseCsvLine 6 (csvRow itemW) =
      some [itemW.customer.company, itemW.customer.representative, itemW.customer.phone,
        itemW.customer.email, itemW.customer.notes, "Processed".toList] :=
  (csvExport_shape [itemW]).2.2.2.2 itemW (by decide)

/-- C10 (amended): the text embedded, URL-encoded, in all three chat deep
links, and the text copied from the chat tab, is the chat-specific variant
`whatsappBody` when that field is present and non-empty, and the
channel-neutral `body` otherwise (absent or empty variant). -/
theorem chat_text_selection (gm : GeneratedMessage) (phone : Str) :
    (∀ w, gm.whatsappBody = some w → w ≠ [] → jsOrStr gm.whatsappBody gm.body = w) ∧
    ((gm.whatsappBody = none ∨ gm.whatsappBody = some []) →
      jsOrStr gm.whatsappBody gm.body = gm.body) ∧
    copyText gm CardTab.whatsapp = jsOrStr gm.whatsappBody gm.body ∧
    handleCopyText (some gm) CardTab.whatsapp = some (jsOrStr gm.whatsappBody gm.body) ∧
    (phone ≠ [] →
      (getWhatsappLink (some gm) phone LinkVariant.web =
        "https://wa.me/".toList ++ removeFirstPlus (normalizePhone phone) ++
          "?text=".toList ++ encodeURIComponent (jsOrStr gm.whatsappBody gm.body)) ∧
      (getWhatsappLink (some gm) phone LinkVariant.app =
        "whatsapp://send?phone=".toList ++ removeFirstPlus (normalizePhone phone) ++
          "&text=".toList ++ encodeURIComponent (jsOrStr gm.whatsappBody gm.body)) ∧
      (getWhatsappLink (some gm) phone LinkVariant.business =
        "intent://send?phone=".toList ++ removeFirstPlus (normalizePhone phone) ++
          "&text=".toList ++ encodeURIComponent (jsOrStr gm.whatsappBody gm.body) ++
          "#Intent;package=com.whatsapp.w4b;scheme=whatsapp;end".toList)) := by
  refine ⟨?_, ?_, rfl, rfl, ?_⟩
  · intro w hw hne
    simp [jsOrStr, hw, hne]
  · intro h
    rcases h with h | h <;> simp [jsOrStr, h]
  · intro hp
    refine ⟨?_, ?_, ?_⟩ <;> simp [getWhatsappLink, hp]

/-- C10 counterexample: a present-but-empty `whatsappBody` is not used; the
copied chat text falls back to the channel-neutral body. -/
theorem chat_text_selection_counterexample :
    msgEmptyWB.whatsappBody = some [] ∧
    copyText msgEmptyWB CardTab.whatsapp = "B".toList ∧
    copyText msgEmptyWB CardTab.whatsapp ≠ [] := by
  decide

/-- C10 witness: the selection theorem applied at a concrete message without
chat variant, so the neutral body is used. -/
theorem chat_text_selection_witness :
    copyText msgW CardTab.whatsapp = jsOrStr msgW.whatsappBody msgW.body ∧
    jsOrStr msgW.whatsappBody msgW.body = msgW.body :=
  ⟨(chat_text_selection msgW "+1234".toList).2.2.1,
    (chat_text_selection msgW "+1234".toList).2.1 (Or.inl rfl)⟩

end Akfix
